import Mathlib

/-!
Verification of the magic-link outreach core of the qscore suite
(`messaging_center/main.py`).

Modelling conventions:

* Time is a natural number of seconds since the Unix epoch.  The code calls
  `datetime.utcnow()` inside each handler; here every handler takes the
  current time `now : Nat` as an explicit argument.  `timedelta(days=10)`
  is `864000` seconds; python-jose serialises the `exp` claim at second
  granularity.
* The JWT produced by `jose.jwt.encode(payload, SECRET, "HS256")` is
  modelled symbolically: the HMAC-SHA256 tag is an ideal MAC, represented
  by the term `MacTag.mk key payload` (standard symbolic/Dolev-Yao model of
  an unforgeable MAC).  A `Token` is the structured form of the serialised
  JWT string; `serializeToken` (below) is an injective bit-level
  serialisation, so equality of `Token` values coincides with equality of
  the stored strings.
* The SQLite database is modelled by `DBState`: the `outreach_messages`
  table as a list of `OutreachRow` (row ids assigned as in an
  auto-increment primary key) and the `bp_readings` table as a list of
  `BpReading`.  Timestamp columns (TEXT isoformat in the code) are
  `Option Nat` values of the `now` of the writing handler.
* HTML responses and the redirect to `/thanks` are presentation only and
  are elided; handlers return the updated database state (and the
  data result of the endpoint where it has one).
-/

/-- The signing secret, default of `os.getenv("QSECRET", "dev-secret")`. -/
def SECRET : String := "dev-secret"

/-- Measure code for blood-pressure control, the literal `"CBP"`. -/
def CBP : String := "CBP"

/-- The literal `"sms"` channel written by `enqueue`. -/
def smsChannel : String := "sms"

/-- The literal status `"queued"`. -/
def statusQueued : String := "queued"

/-- The literal status `"sent"`. -/
def statusSent : String := "sent"

/-- The literal status `"completed"`. -/
def statusCompleted : String := "completed"

/-- The status `"clicked"` named by the lifecycle of the spec. -/
def statusClicked : String := "clicked"

/-- The literal source `"patient_portal"` written by `bp_submit`. -/
def patientPortal : String := "patient_portal"

/-- The literal detail string of the 401 raised by `verify_token`. -/
def invalidDetail : String := "Invalid or expired link"

/-- The JWT claim set `{"pid": ..., "m": ..., "exp": ...}` built by
`create_magic_token`.  `pid` is a Python `int`, hence `Int`. -/
structure Payload where
  pid : Int
  m : String
  exp : Nat
deriving DecidableEq, Repr

/-- Symbolic HMAC-SHA256 tag: an ideal MAC is modelled as the free term
`⟨key, message⟩`, unforgeable and collision-free by construction. -/
structure MacTag where
  key : String
  msg : Payload
deriving DecidableEq, Repr

/-- The term `hmacSign key p` is the tag HMAC-SHA256(key, p) in the symbolic model. -/
def hmacSign (key : String) (p : Payload) : MacTag := ⟨key, p⟩

/-- Structured form of a serialised JWT: the (base64) payload part and the
signature part.  `serializeToken` below maps it injectively to the bit
string actually stored and transmitted. -/
structure Token where
  payload : Payload
  sig : MacTag
deriving DecidableEq, Repr

/-- Ten days in seconds: `timedelta(days=10)` as serialised into the JWT
`exp` claim by python-jose. -/
def tokenTTL : Nat := 864000

/-- Source `create_magic_token(patient_id, measure)`:
payload `{"pid": patient_id, "m": measure, "exp": utcnow() + 10 days}`,
signed with `SECRET` under HS256. -/
def create_magic_token (patient_id : Int) (measure : String) (now : Nat) : Token :=
  let payload : Payload := ⟨patient_id, measure, now + tokenTTL⟩
  ⟨payload, hmacSign SECRET payload⟩

/-- Result of `jose.jwt.decode`: the claims on success, `JWTError`
(spec: `InvalidToken`) on a signature that does not verify, and
`ExpiredSignatureError` (spec: `ExpiredToken`) on a valid signature whose
`exp` is in the past (leeway 0: expired iff `exp < now`). -/
inductive DecodeResult where
  | ok (claims : Payload)
  | errInvalid
  | errExpired
deriving DecidableEq, Repr

/-- Source `jose.jwt.decode(token, key, algorithms=["HS256"])`: verify the
signature first, then the `exp` claim. -/
def jwt_decode (key : String) (t : Token) (now : Nat) : DecodeResult :=
  if t.sig = hmacSign key t.payload then
    if t.payload.exp < now then .errExpired else .ok t.payload
  else .errInvalid

/-- The `HTTPException(status_code, detail)` raised by the service. -/
structure HTTPError where
  status_code : Nat
  detail : String
deriving DecidableEq, Repr

/-- The single error `verify_token` ever raises:
`HTTPException(status_code=401, detail="Invalid or expired link")`. -/
def err401 : HTTPError := ⟨401, invalidDetail⟩

/-- Source `verify_token(token)`: `jwt.decode` inside a
`try/except` that converts every failure into the one generic 401. -/
def verify_token (t : Token) (now : Nat) : Except HTTPError Payload :=
  match jwt_decode SECRET t now with
  | .ok claims => .ok claims
  | .errInvalid => .error err401
  | .errExpired => .error err401

/-- A row of the `outreach_messages` table. -/
structure OutreachRow where
  id : Nat
  patient_id : Int
  measure : String
  channel : String
  status : String
  sent_at : Option Nat
  delivered_at : Option Nat
  clicked_at : Option Nat
  completed_at : Option Nat
  token_jwt : Token
deriving DecidableEq, Repr

/-- A row of the `bp_readings` table. -/
structure BpReading where
  id : Nat
  patient_id : Int
  systolic : Int
  diastolic : Int
  reported_at : Nat
  source : String
deriving DecidableEq, Repr

/-- The mutable database `qmsg.db` (the tables the handlers under
verification touch; `patients` and `referral_requests` are untouched by
those handlers). -/
structure DBState where
  outreach : List OutreachRow
  readings : List BpReading
deriving DecidableEq, Repr

/-- Endpoint `POST /api/enqueue`: mint a token and
`INSERT INTO outreach_messages (patient_id, measure, channel, status,
sent_at, token_jwt) VALUES (?,?,?,?,?,?)` with channel `"sms"`, status
`"queued"` and `sent_at = utcnow()`; columns absent from the INSERT
(`delivered_at`, `clicked_at`, `completed_at`) are NULL.  Returns
`{"ok": True}`. -/
def enqueue (patient_id : Int) (measure : String) (now : Nat) (s : DBState) :
    DBState × Bool :=
  let token := create_magic_token patient_id measure now
  ({ s with outreach := s.outreach ++
      [{ id := s.outreach.length + 1, patient_id := patient_id,
         measure := measure, channel := smsChannel, status := statusQueued,
         sent_at := some now, delivered_at := none, clicked_at := none,
         completed_at := none, token_jwt := token }] }, true)

/-- Endpoint `POST /api/send_queued`: select the ids of rows with
status "queued", then for each id run an UPDATE setting status "sent" WHERE
id=?`; returns `{"sent": len(rows)}`. -/
def send_queued (s : DBState) : DBState × Nat :=
  let rows := s.outreach.filter (fun r => r.status == statusQueued)
  let out := rows.foldl
    (fun acc r => acc.map (fun q =>
      if q.id = r.id then { q with status := statusSent } else q))
    s.outreach
  ({ s with outreach := out }, rows.length)

/-- Endpoint `GET /go?t=...`: verify the token, then
`UPDATE outreach_messages SET clicked_at=? WHERE token_jwt=? AND
clicked_at IS NULL`.  The HTML action menu is elided. -/
def go (t : Token) (now : Nat) (s : DBState) : Except HTTPError DBState :=
  match verify_token t now with
  | .error e => .error e
  | .ok _ =>
    .ok { s with outreach := s.outreach.map (fun r =>
      if r.token_jwt = t ∧ r.clicked_at = none
      then { r with clicked_at := some now } else r) }

/-- The measure rule tested by `bp_submit`:
`data["m"] == "CBP" and sys < 140 and dia < 90`. -/
def goalMet (m : String) (sys dia : Int) : Bool :=
  m == CBP && decide (sys < 140) && decide (dia < 90)

/-- Endpoint `POST /bp`: verify the token, unconditionally
`INSERT INTO bp_readings (patient_id, systolic, diastolic, reported_at,
source)` with the `pid` of the token and source `"patient_portal"`, and if the
goal is met `UPDATE outreach_messages SET completed_at=?,
status := completed WHERE token_jwt matches`.  The redirect to `/thanks` is
elided. -/
def bp_submit (t : Token) (sys dia : Int) (now : Nat) (s : DBState) :
    Except HTTPError DBState :=
  match verify_token t now with
  | .error e => .error e
  | .ok data =>
    let s1 := { s with readings := s.readings ++
      [{ id := s.readings.length + 1, patient_id := data.pid,
         systolic := sys, diastolic := dia, reported_at := now,
         source := patientPortal }] }
    if goalMet data.m sys dia then
      .ok { s1 with outreach := s1.outreach.map (fun r =>
        if r.token_jwt = t
        then { r with completed_at := some now, status := statusCompleted }
        else r) }
    else .ok s1

/-- Returns `true` exactly on the `ok` branch of an `Except`. -/
def exceptOk {ε α : Type} : Except ε α → Bool
  | .ok _ => true
  | .error _ => false

instance {ε α : Type} [DecidableEq ε] [DecidableEq α] : DecidableEq (Except ε α) := by
  intro a b
  cases a <;> cases b
  case error.error e f => exact decidable_of_iff (e = f) (by simp)
  case ok.ok x y => exact decidable_of_iff (x = y) (by simp)
  all_goals exact isFalse (by simp)

/-! ### Shared concrete fixtures -/

/-- The empty database, as created by `init_db`. -/
def emptyDB : DBState := ⟨[], []⟩

/-- A concrete minted token: patient 1, measure `"CBP"`, minted at time 0. -/
def tokEx : Token := create_magic_token 1 CBP 0

/-- Database after `enqueue(patient_id=1, measure="CBP")` at time 0. -/
def exS1 : DBState := (enqueue 1 CBP 0 emptyDB).1

/-- Database after the `send_queued` sweep over `exS1`. -/
def exS2 : DBState := (send_queued exS1).1

/-- Projection of a handler result to the database state (the handlers in
the traces below all succeed, which each trace theorem asserts). -/
def okS : Except HTTPError DBState → DBState
  | .ok s => s
  | .error _ => ⟨[], []⟩

/-- Database after the patient clicks the link (`/go`) at time 1. -/
def exS3 : DBState := okS (go tokEx 1 exS2)

/-- A token whose signature was made with a different secret. -/
def wrongKey : String := "not-the-secret"

/-- A syntactically well-formed token signed under `wrongKey`: its
signature does not verify under `SECRET`. -/
def badTok : Token := ⟨⟨1, CBP, tokenTTL⟩, ⟨wrongKey, ⟨1, CBP, tokenTTL⟩⟩⟩

/-! ### C5: goal-not-met frame -/

/-- Database after submitting the non-qualifying reading 150/95 at time 2
over the clicked database `exS3`. -/
def exS4 : DBState := okS (bp_submit tokEx 150 95 2 exS3)

/-! ### C7: timestamp write-once invariant -/

/-- Database after a first qualifying submission (130/85) at time 5 over
the sent database `exS2`. -/
def c7S5 : DBState := okS (bp_submit tokEx 130 85 5 exS2)

/-- Database after a second qualifying submission (130/85) at time 7. -/
def c7S6 : DBState := okS (bp_submit tokEx 130 85 7 c7S5)

/-! ### Bit-level serialisation of tokens

The code stores and transmits the token in serialised (JWT string) form.
The claims C3 and C8 speak about that serialised form, so we fix an
injective, self-delimiting bit-level serialisation of `Token` together
with its parser, and prove the two directions of the round trip.  A token
whose serialisation cannot be parsed back corresponds to a malformed JWT,
which `jose.jwt.decode` rejects with `JWTError` (the `InvalidToken`
taxon). -/

/-- Self-delimiting encoding of a natural number (`n` ones then a zero). -/
def encNat (n : Nat) : List Bool := List.replicate n true ++ [false]

/-- Parser inverse to `encNat`; accepts exactly canonical encodings. -/
def parseNat : List Bool → Option (Nat × List Bool)
  | [] => none
  | false :: bs => some (0, bs)
  | true :: bs =>
    match parseNat bs with
    | some (n, r) => some (n + 1, r)
    | none => none

/-- Sign-tagged encoding of an integer (Python ints are unbounded). -/
def encInt : Int → List Bool
  | .ofNat n => false :: encNat n
  | .negSucc n => true :: encNat n

/-- Parser inverse to `encInt`. -/
def parseIntB : List Bool → Option (Int × List Bool)
  | [] => none
  | false :: bs =>
    match parseNat bs with
    | some (n, r) => some (Int.ofNat n, r)
    | none => none
  | true :: bs =>
    match parseNat bs with
    | some (n, r) => some (Int.negSucc n, r)
    | none => none

/-- Encoding of one character as its code point. -/
def encChar (c : Char) : List Bool := encNat c.toNat

/-- Length-tagged encoding of a string. -/
def encStr (s : String) : List Bool :=
  encNat s.length ++ (s.data.map encChar).flatten

/-- Parse exactly `n` characters, accepting only valid code points. -/
def parseChars : Nat → List Bool → Option (List Char × List Bool)
  | 0, bs => some ([], bs)
  | n + 1, bs =>
    match parseNat bs with
    | none => none
    | some (k, r) =>
      if (Char.ofNat k).toNat = k then
        match parseChars n r with
        | some (cs, r2) => some (Char.ofNat k :: cs, r2)
        | none => none
      else none

/-- Parser inverse to `encStr`. -/
def parseStrB (bs : List Bool) : Option (String × List Bool) :=
  match parseNat bs with
  | none => none
  | some (n, r) =>
    match parseChars n r with
    | none => none
    | some (cs, r2) => some (String.mk cs, r2)

/-- Serialisation of the JWT claim set. -/
def encPayload (p : Payload) : List Bool :=
  encInt p.pid ++ (encStr p.m ++ encNat p.exp)

/-- Parser inverse to `encPayload`. -/
def parsePayloadB (bs : List Bool) : Option (Payload × List Bool) :=
  match parseIntB bs with
  | none => none
  | some (pid, r1) =>
    match parseStrB r1 with
    | none => none
    | some (m, r2) =>
      match parseNat r2 with
      | none => none
      | some (e, r3) => some (⟨pid, m, e⟩, r3)

/-- The serialised JWT string: payload part followed by the signature
part (the symbolic MAC serialises its key and its signed message). -/
def serializeToken (t : Token) : List Bool :=
  encPayload t.payload ++ (encStr t.sig.key ++ encPayload t.sig.msg)

/-- Parser inverse to `serializeToken`; the whole string must be
consumed. -/
def parseTokenB (bs : List Bool) : Option Token :=
  match parsePayloadB bs with
  | none => none
  | some (p, r1) =>
    match parseStrB r1 with
    | none => none
    | some (k, r2) =>
      match parsePayloadB r2 with
      | none => none
      | some (p2, r3) =>
        if r3 = [] then some ⟨p, ⟨k, p2⟩⟩ else none

/-- Bit-level `jose.jwt.decode`: parse the serialised token (a malformed
string is a `JWTError`, i.e. `InvalidToken`), then check signature and
expiry. -/
def decodeBits (key : String) (bs : List Bool) (now : Nat) : DecodeResult :=
  match parseTokenB bs with
  | none => .errInvalid
  | some t => jwt_decode key t now

/-- Bit-level `verify_token`: the generic 401 on any decode failure. -/
def verify_token_bits (bs : List Bool) (now : Nat) : Except HTTPError Payload :=
  match decodeBits SECRET bs now with
  | .ok claims => .ok claims
  | .errInvalid => .error err401
  | .errExpired => .error err401

/-- Flip the bit at position `i` (identity beyond the end). -/
def flipBit : List Bool → Nat → List Bool
  | [], _ => []
  | b :: bs, 0 => (!b) :: bs
  | b :: bs, i + 1 => b :: flipBit bs i

/-! ### C8: token uniqueness across records -/

/-- Database after a second `enqueue(patient_id=1, measure="CBP")` in the
same second (time 0) as the first. -/
def c8S2 : DBState := (enqueue 1 CBP 0 exS1).1

/-! ### Shared helper lemmas -/

/-- Verifying a freshly minted token within its window yields its claims. -/
theorem verify_mint_ok (p : Int) (m : String) (t0 now : Nat)
    (h : now ≤ t0 + tokenTTL) :
    verify_token (create_magic_token p m t0) now = .ok ⟨p, m, t0 + tokenTTL⟩ := by
  have hlt : ¬ ((t0 + tokenTTL) < now) := by omega
  simp [verify_token, jwt_decode, create_magic_token, hlt]

/-- If verifying a minted token succeeds at all, the returned claims are
exactly the minted payload. -/
theorem verify_mint_inv (p : Int) (m : String) (t0 now : Nat) (d : Payload)
    (h : verify_token (create_magic_token p m t0) now = .ok d) :
    d = ⟨p, m, t0 + tokenTTL⟩ := by
  by_cases hlt : (t0 + tokenTTL) < now
  · simp [verify_token, jwt_decode, create_magic_token, hlt] at h
  · simp [verify_token, jwt_decode, create_magic_token, hlt] at h
    exact h.symm

/-- A list maps to itself under a function fixing each of its members. -/
theorem map_eq_self_of {α : Type} (f : α → α) :
    ∀ l : List α, (∀ a ∈ l, f a = a) → l.map f = l := by
  intro l
  induction l with
  | nil => intro _; rfl
  | cons a l ih =>
    intro h
    simp only [List.map_cons, h a (by simp)]
    rw [ih (fun b hb => h b (by simp [hb]))]

/-- Relate a list and its image under a map pointwise via `Forall₂`. -/
theorem forall₂_map_self {α : Type} (R : α → α → Prop) (f : α → α) :
    ∀ l : List α, (∀ a ∈ l, R a (f a)) → List.Forall₂ R l (l.map f) := by
  intro l
  induction l with
  | nil => intro _; exact List.Forall₂.nil
  | cons a l ih =>
    intro h
    exact List.Forall₂.cons (h a (by simp))
      (ih (fun b hb => h b (by simp [hb])))

/-! ### C1: mint/verify round-trip -/

/-- C1: for every patient id `p`, measure `m` and mint time `t0`, verifying
the token minted for `(p, m)` at any time `now` within the 10-day expiry
succeeds and returns exactly the claims `pid = p`, `m = m` (with
`exp = t0 + 864000`). -/
theorem c1_mint_verify_roundtrip (p : Int) (m : String) (t0 now : Nat)
    (h : now ≤ t0 + tokenTTL) :
    verify_token (create_magic_token p m t0) now = .ok ⟨p, m, t0 + tokenTTL⟩ :=
  verify_mint_ok p m t0 now h

/-- C1 witness: the round-trip at patient 1, measure `"CBP"`, minted at
time 0 and verified at time 5. -/
theorem c1_mint_verify_roundtrip_witness :
    verify_token (create_magic_token 1 CBP 0) 5 = .ok ⟨1, CBP, 0 + tokenTTL⟩ :=
  c1_mint_verify_roundtrip 1 CBP 0 5 (by decide)

/-! ### C2: error taxonomy of verification -/

/-- C2 counterexample: the claim says `verify` fails with the *distinct*
error `InvalidToken` on a bad signature and the *distinct* error
`ExpiredToken` after expiry; but `verify_token` raises the identical
generic `HTTPException(401, "Invalid or expired link")` in both cases
(shown here on a wrong-secret token at time 0 and on a genuinely minted
token one second past its 10-day window), even though the underlying
`jwt.decode` does distinguish the two failure modes. -/
theorem c2_error_taxonomy_counterexample :
    verify_token badTok 0 = .error err401 ∧
    verify_token (create_magic_token 1 CBP 0) 864001 = .error err401 ∧
    jwt_decode SECRET badTok 0 = .errInvalid ∧
    jwt_decode SECRET (create_magic_token 1 CBP 0) 864001 = .errExpired := by
  refine ⟨by decide, by decide, by decide, by decide⟩

/-- C2 amended: the underlying decode (`jwt.decode`) fails with
`JWTError`/`InvalidToken` when the signature does not verify and with
`ExpiredSignatureError`/`ExpiredToken` when now is strictly past
`expires_at` — in particular strictly after the 10-day window a minted
token fails as expired, not invalid — but `verify_token` catches both and
raises the single generic 401 "Invalid or expired link", so the errors it
surfaces are not distinct. -/
theorem c2_error_taxonomy_amended (t : Token) (now : Nat) (p : Int)
    (m : String) (t0 : Nat)
    (hsig : t.sig ≠ hmacSign SECRET t.payload)
    (hexp : t0 + tokenTTL < now) :
    jwt_decode SECRET t now = .errInvalid ∧
    jwt_decode SECRET (create_magic_token p m t0) now = .errExpired ∧
    verify_token t now = .error err401 ∧
    verify_token (create_magic_token p m t0) now = .error err401 := by
  have h1 : jwt_decode SECRET t now = .errInvalid := by
    simp [jwt_decode, hsig]
  have h2 : jwt_decode SECRET (create_magic_token p m t0) now = .errExpired := by
    simp [jwt_decode, create_magic_token, hexp]
  exact ⟨h1, h2, by simp [verify_token, h1], by simp [verify_token, h2]⟩

/-- C2 amended witness: the wrong-secret token and a minted token one
second past expiry. -/
theorem c2_error_taxonomy_amended_witness :
    jwt_decode SECRET badTok 864001 = .errInvalid ∧
    jwt_decode SECRET (create_magic_token 1 CBP 0) 864001 = .errExpired ∧
    verify_token badTok 864001 = .error err401 ∧
    verify_token (create_magic_token 1 CBP 0) 864001 = .error err401 :=
  c2_error_taxonomy_amended badTok 864001 1 CBP 0 (by decide) (by decide)

/-! ### C10: enqueue performs no validation -/

/-- C10: for every patient id and *every* measure string whatsoever,
`enqueue` accepts (`ok = true`) and appends exactly one new outreach row
whose status is `"queued"` (and channel `"sms"`), leaving existing rows
and the readings table untouched: no validation of the measure code is
performed. -/
theorem c10_enqueue_never_rejects (p : Int) (measure : String) (now : Nat)
    (s : DBState) :
    (enqueue p measure now s).2 = true ∧
    (enqueue p measure now s).1.outreach.length = s.outreach.length + 1 ∧
    (enqueue p measure now s).1.outreach.take s.outreach.length = s.outreach ∧
    ((enqueue p measure now s).1.outreach.getLast?).map
      (fun r => (r.patient_id, r.measure, r.status, r.channel)) =
      some (p, measure, statusQueued, smsChannel) ∧
    (enqueue p measure now s).1.readings = s.readings := by
  refine ⟨rfl, by simp [enqueue], ?_, ?_, rfl⟩
  · simp [enqueue]
  · simp [enqueue]

/-! ### C4: goal-met completion -/

/-- C4: under a valid unexpired token for measure `"CBP"`, submitting
systolic 130 / diastolic 85 succeeds, every ledger row bearing that token
ends with status `"completed"` and `completed_at = now`; and in general the
blood-pressure rule of `bp_submit` is met exactly when
`systolic < 140 ∧ diastolic < 90`. -/
theorem c4_goal_met_completion (p : Int) (t0 now : Nat) (s : DBState)
    (h : now ≤ t0 + tokenTTL) :
    exceptOk (bp_submit (create_magic_token p CBP t0) 130 85 now s) = true ∧
    (∀ s', bp_submit (create_magic_token p CBP t0) 130 85 now s = .ok s' →
      ∀ r ∈ s'.outreach, r.token_jwt = create_magic_token p CBP t0 →
        r.status = statusCompleted ∧ r.completed_at = some now) ∧
    (∀ sys dia : Int, goalMet CBP sys dia = true ↔ (sys < 140 ∧ dia < 90)) := by
  have hv := verify_mint_ok p CBP t0 now h
  have hg : goalMet CBP 130 85 = true := by decide
  refine ⟨by simp [bp_submit, hv, hg, exceptOk], ?_, ?_⟩
  · intro s' hs' r hr htok
    simp only [bp_submit, hv, hg, if_true] at hs'
    rw [Except.ok.injEq] at hs'
    subst hs'
    simp only [List.mem_map] at hr
    obtain ⟨q, hq, hfr⟩ := hr
    by_cases hc : q.token_jwt = create_magic_token p CBP t0
    · rw [if_pos hc] at hfr
      subst hfr
      exact ⟨rfl, rfl⟩
    · rw [if_neg hc] at hfr
      subst hfr
      exact absurd htok hc
  · intro sys dia
    simp [goalMet]

/-- C4 witness: the token of patient 1 minted at time 0, used at time 2 on the
post-click database `exS3`. -/
theorem c4_goal_met_completion_witness :
    exceptOk (bp_submit (create_magic_token 1 CBP 0) 130 85 2 exS3) = true :=
  (c4_goal_met_completion 1 0 2 exS3 (by decide)).1

/-- C5 counterexample: in the canonical flow
enqueue → send_queued → click → submit(150, 95), the submission yields
`met = False`, appends the reading and leaves the outreach row unchanged —
but the status of that row is `"sent"`, not `"clicked"` as the claim states:
the code never writes a `"clicked"` status (clicks are recorded only in
`clicked_at`). -/
theorem c5_goal_not_met_counterexample :
    go tokEx 1 exS2 = .ok exS3 ∧
    bp_submit tokEx 150 95 2 exS3 = .ok exS4 ∧
    exS4.outreach = exS3.outreach ∧
    exS4.readings.map (fun r => (r.patient_id, r.systolic, r.diastolic)) =
      [(1, 150, 95)] ∧
    exS4.outreach.map (fun r => (r.status, r.clicked_at)) =
      [(statusSent, some 1)] ∧
    statusSent ≠ statusClicked :=
  ⟨rfl, rfl, by decide, by decide, by decide, by decide⟩

/-- C5 amended: under a valid unexpired `"CBP"` token, submitting
systolic 150 / diastolic 95 yields `met = False` and leaves the whole
outreach table unchanged (in particular the status stays whatever it was —
`"sent"` in the standard flow; the code has no `"clicked"` status) while
still appending the reading to `bp_readings`. -/
theorem c5_goal_not_met_amended (p : Int) (t0 now : Nat) (s : DBState)
    (h : now ≤ t0 + tokenTTL) :
    bp_submit (create_magic_token p CBP t0) 150 95 now s =
      .ok { s with readings := s.readings ++
        [{ id := s.readings.length + 1, patient_id := p, systolic := 150,
           diastolic := 95, reported_at := now, source := patientPortal }] } ∧
    goalMet CBP 150 95 = false := by
  have hv := verify_mint_ok p CBP t0 now h
  have hg : goalMet CBP 150 95 = false := by decide
  exact ⟨by simp [bp_submit, hv, hg], hg⟩

/-- C5 amended witness: the concrete 150/95 submission over `exS3`. -/
theorem c5_goal_not_met_amended_witness :
    bp_submit (create_magic_token 1 CBP 0) 150 95 2 exS3 =
      .ok { exS3 with readings := exS3.readings ++
        [{ id := exS3.readings.length + 1, patient_id := 1, systolic := 150,
           diastolic := 95, reported_at := 2, source := patientPortal }] } :=
  (c5_goal_not_met_amended 1 0 2 exS3 (by decide)).1

/-! ### C6: click idempotence (first-click-wins) -/

/-- C6: two successive clicks on the same token leave the ledger of the
first click untouched, and the first click set `clicked_at` to its own
time only where it was previously NULL (rows for other tokens are
untouched): the value set by the first click is unchanged by the second. -/
theorem c6_click_idempotent (t : Token) (now1 now2 : Nat) (s s1 s2 : DBState)
    (h1 : go t now1 s = .ok s1) (h2 : go t now2 s1 = .ok s2) :
    s2.outreach = s1.outreach ∧
    List.Forall₂ (fun r r1 =>
      (r.token_jwt = t → r1.clicked_at = some (r.clicked_at.getD now1)) ∧
      (r.token_jwt ≠ t → r1 = r)) s.outreach s1.outreach := by
  cases hv1 : verify_token t now1 with
  | error e => simp [go, hv1] at h1
  | ok d1 =>
    simp only [go, hv1, Except.ok.injEq] at h1
    cases hv2 : verify_token t now2 with
    | error e => simp [go, hv2] at h2
    | ok d2 =>
      simp only [go, hv2, Except.ok.injEq] at h2
      subst h1
      subst h2
      constructor
      · show (DBState.mk _ _).outreach = _
        simp only
        apply map_eq_self_of
        intro r1 hr1
        simp only [List.mem_map] at hr1
        obtain ⟨q, hq, hfr⟩ := hr1
        by_cases hc : q.token_jwt = t ∧ q.clicked_at = none
        · rw [if_pos hc] at hfr
          subst hfr
          rw [if_neg]
          simp
        · rw [if_neg hc] at hfr
          subst hfr
          rw [if_neg hc]
      · show List.Forall₂ _ _ ((DBState.mk _ _).outreach)
        simp only
        apply forall₂_map_self
        intro q hq
        constructor
        · intro htok
          by_cases hn : q.clicked_at = none
          · rw [if_pos ⟨htok, hn⟩, hn]
            rfl
          · rw [if_neg (by simp [hn])]
            obtain ⟨x, hx⟩ := Option.ne_none_iff_exists'.mp hn
            rw [hx]
            rfl
        · intro htok
          rw [if_neg (by simp [htok])]

/-- C6 witness: clicking `tokEx` at time 2 on the already-clicked database
`exS3` changes no outreach row. -/
theorem c6_click_idempotent_witness :
    (okS (go tokEx 2 exS3)).outreach = exS3.outreach :=
  (c6_click_idempotent tokEx 1 2 exS2 exS3 (okS (go tokEx 2 exS3)) rfl rfl).1

/-- C7 counterexample: the claim says each timestamp is set at most once,
`sent_at` is not set before the record is sent, and `completed_at` is not
rewritten by a second qualifying submission.  But (i) `enqueue` alone
already writes `sent_at = now` on the freshly created row while its status
is still `"queued"`, and (ii) a second qualifying submission overwrites
`completed_at` from `some 5` to `some 7`. -/
theorem c7_timestamp_counterexample :
    exS1.outreach.map (fun r => (r.status, r.sent_at)) =
      [(statusQueued, some 0)] ∧
    bp_submit tokEx 130 85 5 exS2 = .ok c7S5 ∧
    bp_submit tokEx 130 85 7 c7S5 = .ok c7S6 ∧
    c7S5.outreach.map (fun r => r.completed_at) = [some 5] ∧
    c7S6.outreach.map (fun r => r.completed_at) = [some 7] ∧
    (some 7 : Option Nat) ≠ some 5 :=
  ⟨by decide, rfl, rfl, by decide, by decide, by decide⟩

/-- C7 amended: `clicked_at` alone is write-once — a click never
overwrites an existing `clicked_at` (the update is guarded by
`clicked_at IS NULL`).  `sent_at` however is written by `enqueue` at row
creation, while the status is still `"queued"` (there is no `created_at`
column), and every qualifying submission (re)writes `completed_at := now`
and status `"completed"` on the rows of the token, so a second qualifying
submission rewrites `completed_at`. -/
theorem c7_timestamp_amended (p : Int) (m : String) (t : Token)
    (t0 nowq nowc nowb : Nat) (sa sb sc sa' sc' : DBState) (sys dia : Int)
    (hclick : go t nowc sa = .ok sa')
    (hsub : bp_submit (create_magic_token p CBP t0) sys dia nowb sc = .ok sc')
    (hsys : sys < 140) (hdia : dia < 90) :
    (((enqueue p m nowq sb).1.outreach.getLast?).map
      (fun r => (r.status, r.sent_at)) = some (statusQueued, some nowq)) ∧
    List.Forall₂ (fun r r1 => ∀ x, r.clicked_at = some x →
      r1.clicked_at = some x) sa.outreach sa'.outreach ∧
    List.Forall₂ (fun r r1 => r.token_jwt = create_magic_token p CBP t0 →
      r1.completed_at = some nowb ∧ r1.status = statusCompleted)
      sc.outreach sc'.outreach := by
  refine ⟨by simp [enqueue], ?_, ?_⟩
  · cases hv : verify_token t nowc with
    | error e => simp [go, hv] at hclick
    | ok d =>
      simp only [go, hv, Except.ok.injEq] at hclick
      subst hclick
      show List.Forall₂ _ _ ((DBState.mk _ _).outreach)
      simp only
      apply forall₂_map_self
      intro q hq x hx
      rw [if_neg (by simp [hx])]
      exact hx
  · cases hv : verify_token (create_magic_token p CBP t0) nowb with
    | error e => simp [bp_submit, hv] at hsub
    | ok d =>
      have hd := verify_mint_inv p CBP t0 nowb d hv
      subst hd
      have hg : goalMet CBP sys dia = true := by
        simp [goalMet, hsys, hdia]
      simp only [bp_submit, hv, hg, if_true, Except.ok.injEq] at hsub
      subst hsub
      show List.Forall₂ _ _ ((DBState.mk _ _).outreach)
      simp only
      apply forall₂_map_self
      intro q hq htok
      rw [if_pos htok]
      exact ⟨rfl, rfl⟩

/-- C7 amended witness: the concrete flow — a fresh enqueue at time 0, the
click at time 1 over `exS2`, and the qualifying 130/85 submission at
time 5 over `exS2`. -/
theorem c7_timestamp_amended_witness :
    ((enqueue 1 CBP 0 emptyDB).1.outreach.getLast?).map
      (fun r => (r.status, r.sent_at)) = some (statusQueued, some 0) :=
  (c7_timestamp_amended 1 CBP tokEx 0 0 1 5 exS2 emptyDB exS2 exS3 c7S5
    130 85 rfl rfl (by decide) (by decide)).1

/-! ### C9: sweep idempotence of send_queued -/

/-- The per-id update loop of `send_queued` over any worklist of rows
amounts to flipping to `"sent"` exactly the rows whose id occurs in the
worklist. -/
theorem send_foldl_characterization (rows : List OutreachRow) :
    ∀ l : List OutreachRow,
      rows.foldl (fun acc r => acc.map (fun q =>
        if q.id = r.id then { q with status := statusSent } else q)) l =
      l.map (fun q => if rows.any (fun r => q.id == r.id)
        then { q with status := statusSent } else q) := by
  induction rows with
  | nil =>
    intro l
    simp
  | cons r rows ih =>
    intro l
    rw [List.foldl_cons, ih, List.map_map]
    apply List.map_congr_left
    intro q hq
    simp only [Function.comp_apply, List.any_cons]
    by_cases hc : q.id = r.id
    · have hb : (q.id == r.id) = true := by simp [hc]
      rw [if_pos hc]
      simp [hb, ite_self]
    · have hb : (q.id == r.id) = false := by simp [hc]
      rw [if_neg hc]
      simp [hb]

/-- A sweep over a database with no `"queued"` rows is a no-op reporting
zero. -/
theorem send_queued_no_queued (s : DBState)
    (h : s.outreach.filter (fun r => r.status == statusQueued) = []) :
    send_queued s = (s, 0) := by
  simp only [send_queued, h, List.foldl_nil, List.length_nil]

/-- C9: as long as row ids are distinct (they are a primary key),
`send_queued` reports the number of `"queued"` rows, rewrites exactly
those rows to `"sent"` leaving every other row untouched, keeps every
non-queued row as it was, and an immediately repeated sweep is a no-op
reporting zero rows sent. -/
theorem c9_send_queued_idempotent (s : DBState)
    (hid : (s.outreach.map (fun r => r.id)).Nodup) :
    (send_queued s).2 =
      (s.outreach.filter (fun r => r.status == statusQueued)).length ∧
    (send_queued s).1.outreach = s.outreach.map
      (fun r => if r.status = statusQueued
        then { r with status := statusSent } else r) ∧
    (∀ r ∈ s.outreach, r.status ≠ statusQueued →
      r ∈ (send_queued s).1.outreach) ∧
    send_queued (send_queued s).1 = ((send_queued s).1, 0) := by
  have hinj := List.inj_on_of_nodup_map hid
  have hmain : (send_queued s).1.outreach = s.outreach.map
      (fun r => if r.status = statusQueued
        then { r with status := statusSent } else r) := by
    show (DBState.mk _ _).outreach = _
    simp only
    rw [send_foldl_characterization]
    apply List.map_congr_left
    intro q hq
    by_cases hs : q.status = statusQueued
    · rw [if_pos hs, if_pos]
      rw [List.any_eq_true]
      exact ⟨q, List.mem_filter.2 ⟨hq, by simp [hs]⟩, by simp⟩
    · rw [if_neg hs, if_neg]
      rw [List.any_eq_true]
      rintro ⟨r, hrf, hqr⟩
      have hrmem := List.mem_filter.1 hrf
      have : q = r := hinj hq hrmem.1 (by simpa using hqr)
      subst this
      exact hs (by simpa using hrmem.2)
  have hnoq : (send_queued s).1.outreach.filter
      (fun r => r.status == statusQueued) = [] := by
    rw [hmain, List.filter_eq_nil_iff]
    intro r hr
    simp only [List.mem_map] at hr
    obtain ⟨q, hq, hfr⟩ := hr
    by_cases hs : q.status = statusQueued
    · rw [if_pos hs] at hfr
      subst hfr
      simp [statusSent, statusQueued]
    · rw [if_neg hs] at hfr
      subst hfr
      simp [hs]
  refine ⟨rfl, hmain, ?_, ?_⟩
  · intro r hr hs
    rw [hmain]
    exact List.mem_map.2 ⟨r, hr, by simp [hs]⟩
  · exact send_queued_no_queued _ hnoq

/-- C9 witness: over the one-queued-row database `exS1`, the second sweep
is a no-op reporting zero (note `exS2` is by definition the state after
the first sweep). -/
theorem c9_send_queued_idempotent_witness :
    send_queued exS2 = (exS2, 0) :=
  (c9_send_queued_idempotent exS1 (by decide)).2.2.2

theorem parseNat_enc (n : Nat) (rest : List Bool) :
    parseNat (encNat n ++ rest) = some (n, rest) := by
  induction n with
  | zero => rfl
  | succ n ih =>
    have h : encNat (n + 1) ++ rest = true :: (encNat n ++ rest) := by
      simp [encNat, List.replicate_succ]
    rw [h]
    simp [parseNat, ih]

theorem parseNat_sound : ∀ (bs : List Bool) (n : Nat) (rest : List Bool),
    parseNat bs = some (n, rest) → bs = encNat n ++ rest := by
  intro bs
  induction bs with
  | nil => intro n rest h; simp [parseNat] at h
  | cons b bs ih =>
    intro n rest h
    cases b with
    | false =>
      simp only [parseNat, Option.some.injEq, Prod.mk.injEq] at h
      obtain ⟨h1, h2⟩ := h
      subst h1
      subst h2
      rfl
    | true =>
      simp only [parseNat] at h
      split at h
      · rename_i k r hm
        simp only [Option.some.injEq, Prod.mk.injEq] at h
        obtain ⟨h1, h2⟩ := h
        subst h1
        subst h2
        rw [ih _ _ hm]
        simp [encNat, List.replicate_succ]
      · simp at h

theorem parseIntB_enc (z : Int) (rest : List Bool) :
    parseIntB (encInt z ++ rest) = some (z, rest) := by
  cases z with
  | ofNat n => simp [encInt, parseIntB, parseNat_enc]
  | negSucc n => simp [encInt, parseIntB, parseNat_enc]

theorem parseIntB_sound (bs : List Bool) (z : Int) (rest : List Bool)
    (h : parseIntB bs = some (z, rest)) : bs = encInt z ++ rest := by
  match bs with
  | [] => simp [parseIntB] at h
  | false :: bs =>
    simp only [parseIntB] at h
    split at h
    · rename_i k r hm
      simp only [Option.some.injEq, Prod.mk.injEq] at h
      obtain ⟨h1, h2⟩ := h
      subst h1
      subst h2
      rw [parseNat_sound _ _ _ hm]
      rfl
    · simp at h
  | true :: bs =>
    simp only [parseIntB] at h
    split at h
    · rename_i k r hm
      simp only [Option.some.injEq, Prod.mk.injEq] at h
      obtain ⟨h1, h2⟩ := h
      subst h1
      subst h2
      rw [parseNat_sound _ _ _ hm]
      rfl
    · simp at h

theorem parseChars_enc : ∀ (cs : List Char) (rest : List Bool),
    parseChars cs.length ((cs.map encChar).flatten ++ rest) = some (cs, rest) := by
  intro cs
  induction cs with
  | nil => intro rest; rfl
  | cons c cs ih =>
    intro rest
    have h : ((c :: cs).map encChar).flatten ++ rest =
        encNat c.toNat ++ ((cs.map encChar).flatten ++ rest) := by
      simp [encChar]
    simp only [List.length_cons, h]
    simp only [parseChars, parseNat_enc]
    rw [if_pos (by rw [Char.ofNat_toNat])]
    rw [ih rest]
    rw [Char.ofNat_toNat]

theorem parseChars_sound : ∀ (n : Nat) (bs : List Bool) (cs : List Char)
    (rest : List Bool), parseChars n bs = some (cs, rest) →
    bs = (cs.map encChar).flatten ++ rest ∧ cs.length = n := by
  intro n
  induction n with
  | zero =>
    intro bs cs rest h
    simp only [parseChars, Option.some.injEq, Prod.mk.injEq] at h
    obtain ⟨h1, h2⟩ := h
    subst h1
    subst h2
    simp
  | succ n ih =>
    intro bs cs rest h
    simp only [parseChars] at h
    split at h
    · simp at h
    · rename_i k r hm
      split at h
      · rename_i hk
        split at h
        · rename_i cs2 r2 hc
          simp only [Option.some.injEq, Prod.mk.injEq] at h
          obtain ⟨h1, h2⟩ := h
          subst h1
          subst h2
          obtain ⟨hr, hlen⟩ := ih r cs2 _ hc
          subst hr
          refine ⟨?_, by simp [hlen]⟩
          rw [parseNat_sound _ _ _ hm]
          simp [encChar, hk]
        · simp at h
      · simp at h

theorem parseStrB_enc (s : String) (rest : List Bool) :
    parseStrB (encStr s ++ rest) = some (s, rest) := by
  have h : encStr s ++ rest =
      encNat s.length ++ ((s.data.map encChar).flatten ++ rest) := by
    simp [encStr]
  rw [h]
  simp only [parseStrB, parseNat_enc]
  have hlen : s.length = s.data.length := rfl
  rw [hlen, parseChars_enc s.data rest]

theorem parseStrB_sound (bs : List Bool) (s : String) (rest : List Bool)
    (h : parseStrB bs = some (s, rest)) : bs = encStr s ++ rest := by
  simp only [parseStrB] at h
  split at h
  · simp at h
  · rename_i n r hm
    split at h
    · simp at h
    · rename_i cs r2 hc
      simp only [Option.some.injEq, Prod.mk.injEq] at h
      obtain ⟨h1, h2⟩ := h
      subst h1
      subst h2
      obtain ⟨hr, hlen⟩ := parseChars_sound n r cs _ hc
      subst hr
      have h3 : (String.mk cs).length = n := hlen
      rw [parseNat_sound _ _ _ hm]
      simp only [encStr, List.append_assoc, h3]

theorem parsePayloadB_enc (p : Payload) (rest : List Bool) :
    parsePayloadB (encPayload p ++ rest) = some (p, rest) := by
  have h : encPayload p ++ rest =
      encInt p.pid ++ (encStr p.m ++ (encNat p.exp ++ rest)) := by
    simp [encPayload]
  rw [h]
  simp only [parsePayloadB, parseIntB_enc, parseStrB_enc, parseNat_enc]

theorem parsePayloadB_sound (bs : List Bool) (p : Payload) (rest : List Bool)
    (h : parsePayloadB bs = some (p, rest)) : bs = encPayload p ++ rest := by
  simp only [parsePayloadB] at h
  split at h
  · simp at h
  · rename_i pid r1 h1
    split at h
    · simp at h
    · rename_i m r2 h2
      split at h
      · simp at h
      · rename_i e r3 h3
        simp only [Option.some.injEq, Prod.mk.injEq] at h
        obtain ⟨hp, hr⟩ := h
        subst hp
        subst hr
        rw [parseIntB_sound _ _ _ h1, parseStrB_sound _ _ _ h2,
          parseNat_sound _ _ _ h3]
        simp [encPayload]

/-- Injectivity of `encPayload`. -/
theorem encPayload_inj (p q : Payload) (h : encPayload p = encPayload q) :
    p = q := by
  have hp := parsePayloadB_enc p []
  have hq := parsePayloadB_enc q []
  rw [h, hq] at hp
  simp at hp
  exact hp.symm

theorem parseTokenB_serialize (t : Token) :
    parseTokenB (serializeToken t) = some t := by
  have h : serializeToken t =
      encPayload t.payload ++ (encStr t.sig.key ++ (encPayload t.sig.msg ++ [])) := by
    simp [serializeToken]
  rw [h]
  simp only [parseTokenB, parsePayloadB_enc, parseStrB_enc]
  simp

theorem parseTokenB_sound (bs : List Bool) (t : Token)
    (h : parseTokenB bs = some t) : bs = serializeToken t := by
  simp only [parseTokenB] at h
  split at h
  · simp at h
  · rename_i p r1 h1
    split at h
    · simp at h
    · rename_i k r2 h2
      split at h
      · simp at h
      · rename_i p2 r3 h3
        split at h
        · rename_i hr3
          subst hr3
          simp only [Option.some.injEq] at h
          subst h
          rw [parsePayloadB_sound _ _ _ h1, parseStrB_sound _ _ _ h2,
            parsePayloadB_sound _ _ _ h3]
          simp [serializeToken]
        · simp at h

/-- Injectivity of `serializeToken`: two tokens with the same stored string
are the same token. -/
theorem serializeToken_inj (t1 t2 : Token)
    (h : serializeToken t1 = serializeToken t2) : t1 = t2 := by
  have h1 := parseTokenB_serialize t1
  rw [h, parseTokenB_serialize t2] at h1
  simpa using h1.symm

/-- Coherence of the two views: verifying a serialised token is verifying
the structured token. -/
theorem verify_token_bits_coherent (t : Token) (now : Nat) :
    verify_token_bits (serializeToken t) now = verify_token t now := by
  simp only [verify_token_bits, decodeBits, parseTokenB_serialize, verify_token]

theorem flipBit_length : ∀ (l : List Bool) (i : Nat),
    (flipBit l i).length = l.length := by
  intro l
  induction l with
  | nil => intro i; rfl
  | cons b bs ih =>
    intro i
    cases i with
    | zero => rfl
    | succ i => simp [flipBit, ih]

theorem flipBit_getD_ne : ∀ (l : List Bool) (i j : Nat), j ≠ i →
    (flipBit l i).getD j false = l.getD j false := by
  intro l
  induction l with
  | nil => intro i j hne; rfl
  | cons b bs ih =>
    intro i j hne
    cases i with
    | zero =>
      cases j with
      | zero => exact absurd rfl hne
      | succ j => rfl
    | succ i =>
      cases j with
      | zero => rfl
      | succ j =>
        simp only [flipBit, List.getD_cons_succ]
        exact ih i j (fun h => hne (by rw [h]))

theorem flipBit_getD_eq : ∀ (l : List Bool) (i : Nat), i < l.length →
    (flipBit l i).getD i false = !(l.getD i false) := by
  intro l
  induction l with
  | nil => intro i hi; simp at hi
  | cons b bs ih =>
    intro i hi
    cases i with
    | zero => rfl
    | succ i =>
      simp only [flipBit, List.getD_cons_succ]
      exact ih i (by simpa using hi)

/-- Two equal-length distinct lists differ at some in-range index. -/
theorem exists_getD_ne : ∀ (l l2 : List Bool), l.length = l2.length →
    l ≠ l2 → ∃ j, j < l.length ∧ l.getD j false ≠ l2.getD j false := by
  intro l
  induction l with
  | nil =>
    intro l2 hlen hne
    cases l2 with
    | nil => exact absurd rfl hne
    | cons b bs => simp at hlen
  | cons a l ih =>
    intro l2 hlen hne
    cases l2 with
    | nil => simp at hlen
    | cons b bs =>
      by_cases hab : a = b
      · subst hab
        have hne2 : l ≠ bs := by
          intro h
          exact hne (by rw [h])
        obtain ⟨j, hj, hd⟩ := ih bs (by simpa using hlen) hne2
        exact ⟨j + 1, by simpa using hj, by simpa using hd⟩
      · exact ⟨0, by simp, by simpa using hab⟩

theorem getD_append_lt {α : Type} (d : α) : ∀ (l l2 : List α) (j : Nat),
    j < l.length → (l ++ l2).getD j d = l.getD j d := by
  intro l
  induction l with
  | nil => intro l2 j hj; simp at hj
  | cons a l ih =>
    intro l2 j hj
    cases j with
    | zero => rfl
    | succ j =>
      simp only [List.cons_append, List.getD_cons_succ]
      exact ih l2 j (by simpa using hj)

theorem getD_append_add {α : Type} (d : α) : ∀ (l l2 : List α) (j : Nat),
    (l ++ l2).getD (l.length + j) d = l2.getD j d := by
  intro l
  induction l with
  | nil => intro l2 j; simp
  | cons a l ih =>
    intro l2 j
    have h : (a :: l).length + j = (l.length + j) + 1 := by
      simp [Nat.succ_add]
    rw [h]
    simp only [List.cons_append, List.getD_cons_succ]
    exact ih l2 j

/-- Nonemptiness of `encPayload` (its first component starts with a sign
bit). -/
theorem encPayload_ne_nil (p : Payload) : encPayload p ≠ [] := by
  cases hz : p.pid with
  | ofNat n => simp [encPayload, hz, encInt]
  | negSucc n => simp [encPayload, hz, encInt]

/-- Core of tamper rejection: flipping any single bit of the serialised
form of a validly signed token yields a string that can no longer decode
— in the symbolic MAC model no one-bit variant of a valid token is a
valid token, so the signature check (or the parse itself) fails. -/
theorem flip_serial_invalid (pl : Payload) (i now : Nat)
    (hi : i < (serializeToken ⟨pl, hmacSign SECRET pl⟩).length) :
    decodeBits SECRET
      (flipBit (serializeToken ⟨pl, hmacSign SECRET pl⟩) i) now = .errInvalid := by
  set tk : Token := ⟨pl, hmacSign SECRET pl⟩ with htk
  set L : List Bool := serializeToken tk with hL
  set bs : List Bool := flipBit L i with hbs
  cases hparse : parseTokenB bs with
  | none => simp [decodeBits, hparse]
  | some t2 =>
    by_cases hsig : t2.sig = hmacSign SECRET t2.payload
    · exfalso
      have hbs_eq : bs = serializeToken t2 := parseTokenB_sound _ _ hparse
      by_cases hp : t2.payload = pl
      · have hs2 : t2.sig = hmacSign SECRET pl := by rw [hsig, hp]
        have ht2 : t2 = tk := by
          calc t2 = ⟨t2.payload, t2.sig⟩ := rfl
            _ = tk := by rw [hp, hs2]
        rw [ht2, ← hL] at hbs_eq
        have hne := flipBit_getD_eq L i hi
        rw [← hbs, hbs_eq] at hne
        simp at hne
      · have hbs2 : bs = encPayload t2.payload ++
            (encStr SECRET ++ encPayload t2.payload) := by
          rw [hbs_eq]
          simp [serializeToken, hsig, hmacSign]
        have hL2 : L = encPayload pl ++ (encStr SECRET ++ encPayload pl) := rfl
        have hlen : bs.length = L.length := by
          rw [hbs]
          exact flipBit_length L i
        have e1 : bs.length = (encPayload t2.payload).length +
            ((encStr SECRET).length + (encPayload t2.payload).length) := by
          rw [hbs2]
          simp [List.length_append]
        have e2 : L.length = (encPayload pl).length +
            ((encStr SECRET).length + (encPayload pl).length) := by
          rw [hL2]
          simp [List.length_append]
        have ha : (encPayload t2.payload).length = (encPayload pl).length := by
          omega
        have hpe : encPayload t2.payload ≠ encPayload pl :=
          fun h => hp (encPayload_inj _ _ h)
        obtain ⟨j, hj, hjne⟩ := exists_getD_ne _ _ ha hpe
        have hbsj : bs.getD j false = (encPayload t2.payload).getD j false := by
          rw [hbs2]
          exact getD_append_lt false _ _ j hj
        have hLj : L.getD j false = (encPayload pl).getD j false := by
          rw [hL2]
          exact getD_append_lt false _ _ j (by omega)
        have hd1 : bs.getD j false ≠ L.getD j false := by
          rw [hbsj, hLj]
          exact hjne
        have hji : j = i := by
          by_contra hne2
          exact hd1 (by rw [hbs]; exact flipBit_getD_ne L i j hne2)
        have hbsj2 : bs.getD ((encPayload t2.payload).length +
            ((encStr SECRET).length + j)) false =
            (encPayload t2.payload).getD j false := by
          rw [hbs2, getD_append_add, getD_append_add]
        have hLj2 : L.getD ((encPayload pl).length +
            ((encStr SECRET).length + j)) false =
            (encPayload pl).getD j false := by
          rw [hL2, getD_append_add, getD_append_add]
        rw [ha] at hbsj2
        have hd2 : bs.getD ((encPayload pl).length +
            ((encStr SECRET).length + j)) false ≠
            L.getD ((encPayload pl).length +
              ((encStr SECRET).length + j)) false := by
          rw [hbsj2, hLj2]
          exact hjne
        have hj2i : (encPayload pl).length + ((encStr SECRET).length + j) = i := by
          by_contra hne2
          exact hd2 (by rw [hbs]; exact flipBit_getD_ne L i _ hne2)
        have hpos : 0 < (encPayload pl).length :=
          List.length_pos.2 (encPayload_ne_nil pl)
        omega
    · simp [decodeBits, hparse, jwt_decode, hsig]

/-! ### C3: single-bit tamper rejection -/

/-- C3: for every minted token and every single-bit mutation of its
serialised form, decoding fails with the invalid-signature error
(`JWTError`, the `InvalidToken` of the spec taxonomy — never expired), and
the string-level `verify_token` raises the generic 401.  The HMAC-SHA256
tag is idealised as a symbolic MAC. -/
theorem c3_tamper_rejection (p : Int) (m : String) (t0 i now : Nat)
    (hi : i < (serializeToken (create_magic_token p m t0)).length) :
    decodeBits SECRET
      (flipBit (serializeToken (create_magic_token p m t0)) i) now = .errInvalid ∧
    verify_token_bits
      (flipBit (serializeToken (create_magic_token p m t0)) i) now = .error err401 := by
  have hcore : decodeBits SECRET
      (flipBit (serializeToken (create_magic_token p m t0)) i) now = .errInvalid :=
    flip_serial_invalid ⟨p, m, t0 + tokenTTL⟩ i now hi
  exact ⟨hcore, by simp [verify_token_bits, hcore]⟩

/-- C3 witness: flipping bit 0 of the serialised token of patient 1,
measure `"CBP"`, minted at time 0. -/
theorem c3_tamper_rejection_witness :
    decodeBits SECRET
      (flipBit (serializeToken (create_magic_token 1 CBP 0)) 0) 0 = .errInvalid :=
  (c3_tamper_rejection 1 CBP 0 0 0 (by
    have h1 : serializeToken (create_magic_token 1 CBP 0) =
        encPayload ⟨1, CBP, tokenTTL⟩ ++
          (encStr SECRET ++ encPayload ⟨1, CBP, tokenTTL⟩) := rfl
    rw [h1]
    have hpos : 0 < (encPayload (⟨1, CBP, tokenTTL⟩ : Payload)).length :=
      List.length_pos.2 (encPayload_ne_nil _)
    simp only [List.length_append]
    omega)).1

/-- C8 counterexample: two distinct outreach records (ids 1 and 2) created
by two enqueues for the same patient and measure within the same second
carry the *same* stored token (and hence the same serialised token
string): `create_magic_token` is deterministic in (patient, measure,
second), so tokens are reused across such records. -/
theorem c8_token_uniqueness_counterexample :
    c8S2.outreach.map (fun r => r.id) = [1, 2] ∧
    c8S2.outreach.map (fun r => r.token_jwt) =
      [create_magic_token 1 CBP 0, create_magic_token 1 CBP 0] ∧
    c8S2.outreach.map (fun r => serializeToken r.token_jwt) =
      [serializeToken (create_magic_token 1 CBP 0),
        serializeToken (create_magic_token 1 CBP 0)] :=
  ⟨by decide, rfl, rfl⟩

/-- C8 amended: two minted tokens (and their serialised strings) coincide
exactly when their patient id, measure and mint second all coincide — so
tokens differ across records except when the same patient/measure pair is
enqueued within the same second, in which case the token is reused. -/
theorem c8_token_uniqueness_amended (p q : Int) (m n : String) (t0 t1 : Nat) :
    (create_magic_token p m t0 = create_magic_token q n t1 ↔
      (p = q ∧ m = n ∧ t0 = t1)) ∧
    (serializeToken (create_magic_token p m t0) =
        serializeToken (create_magic_token q n t1) ↔
      (p = q ∧ m = n ∧ t0 = t1)) := by
  have h1 : create_magic_token p m t0 = create_magic_token q n t1 ↔
      (p = q ∧ m = n ∧ t0 = t1) := by
    constructor
    · intro h
      have hp : (create_magic_token p m t0).payload =
          (create_magic_token q n t1).payload := by rw [h]
      simp only [create_magic_token, Payload.mk.injEq] at hp
      exact ⟨hp.1, hp.2.1, by have := hp.2.2; omega⟩
    · rintro ⟨rfl, rfl, rfl⟩
      rfl
  refine ⟨h1, ?_, ?_⟩
  · intro h
    exact h1.1 (serializeToken_inj _ _ h)
  · rintro ⟨rfl, rfl, rfl⟩
    rfl
